import Mathlib

/-
  Verification development for the remote-mcp-server-authless repository.

  The definitions below are shallow embeddings of the two TypeScript source
  files: the Cloudflare worker (calculator tools, HTTP router, SSE rewrite
  filter) and the stdio trust-catalog server (catalog cache, trust filter
  tool).  JS numbers are modelled as rationals with the rendering function
  abstracted, byte streams as lists of naturals below 256, and JS truthiness
  of optional strings explicitly.
-/

namespace RemoteMcp

/-! ## Calculator tool (worker source, class MyMCP, tool "calculate") -/

/-- Closed operation enumeration, from the zod enum
    `z.enum(["add", "subtract", "multiply", "divide"])`. -/
inductive Operation where
  | add
  | subtract
  | multiply
  | divide
deriving DecidableEq

/-- One content block of an MCP tool result, from the object literals
    `{ type: "text", text: ... }` in the handlers. -/
structure ContentBlock where
  type : String
  text : String
deriving DecidableEq

/-- An MCP tool result.  The handlers in the source return object literals
    with only a `content` field; the protocol treats a result without an
    `isError: true` marker as a successful (non-error) result, so the
    default is `false`. -/
structure ToolResult where
  content : List ContentBlock
  isError : Bool := false
deriving DecidableEq

/-- Shallow embedding of the `calculate` tool handler (worker source,
    lines 28-66).  Numbers are modelled as rationals; the JS
    `String(result)` rendering is abstracted as the parameter `render`
    (none of the claims depends on number formatting).  The `default`
    branch of the switch is unreachable because `Operation` is the closed
    zod enumeration. -/
def calculate (render : Rat → String) (operation : Operation) (a b : Rat) : ToolResult :=
  match operation with
  | Operation.add => ⟨[⟨"text", render (a + b)⟩], false⟩
  | Operation.subtract => ⟨[⟨"text", render (a - b)⟩], false⟩
  | Operation.multiply => ⟨[⟨"text", render (a * b)⟩], false⟩
  | Operation.divide =>
      if b = 0 then ⟨[⟨"text", "Error: Cannot divide by zero"⟩], false⟩
      else ⟨[⟨"text", render (a / b)⟩], false⟩

/-! ## HTTP router (worker source, default export fetch, lines 141-171) -/

/-- The four actions the worker fetch handler can take: delegate to
    `MyMCP.serveSSE("/sse")` and pass the response through the SSE rewrite
    filter; delegate to `MyMCP.serve("/sse/message")`; answer the fixed
    plaintext capability description; or answer 404. -/
inductive RouteAction where
  | streamOpen
  | messagePost
  | rootInfo
  | notFound
deriving DecidableEq

/-- Embedding of `rawPath.replace(/\/+$/, "")`: remove the trailing run of
    slashes. -/
def stripTrailingSlashes (s : String) : String :=
  String.mk ((s.data.reverse.dropWhile (fun c => c = '/')).reverse)

/-- Embedding of `const path = rawPath.replace(/\/+$/, "") || "/"`. -/
def normalizePath (rawPath : String) : String :=
  let stripped := stripTrailingSlashes rawPath
  if stripped = "" then "/" else stripped

/-- Shallow embedding of the routing logic of the worker fetch handler
    (lines 143-171).  The source tests only the normalized path in three
    successive `if` statements and never inspects the request method, so
    `method` is an argument the function ignores — exactly as the code
    does.  The first matching branch returns, therefore `"/mcp"` in the
    second condition is unreachable. -/
def route (method : String) (pathname : String) : RouteAction :=
  let rawPath := if pathname = "" then "/" else pathname
  let path := normalizePath rawPath
  if path = "/sse" || path = "/mcp" then RouteAction.streamOpen
  else if path = "/sse/message" || path = "/mcp/message" || path = "/mcp" then
    RouteAction.messagePost
  else if path = "/" || path = "" then RouteAction.rootInfo
  else RouteAction.notFound

/-! ## Origin computation (worker source, rewriteSseResponseToAbsolute line 80)

  The source line is
  `const origin = protocol + "//" + (request.headers.get("host") ?? urlObj.host)`
  (template literal).  The identifier `request` is not bound inside
  `rewriteSseResponseToAbsolute` — the function only receives `resp` and
  `requestUrl` — so the line as written fails; the definition below embeds
  the expression under the evident intended binding of `request` to the
  inbound request, with the Host header modelled as an `Option String`
  (`none` = header absent, which is what the nullish `??` tests). -/

/-- Origin selection expression of line 80 under the intended binding of
    `request`: scheme from the request URL, host from the Host header when
    present, else the URL host. -/
def computeOrigin (protocol : String) (hostHeader : Option String) (urlHost : String) : String :=
  protocol ++ "//" ++ hostHeader.getD urlHost

/-! ## Remote catalog cache (stdio source, fetchTrustCatalog, lines 23-33) -/

/-- Shape of one entry of the remote trust catalog, as the two tools
    consume it: `TrustFactors` is `some` list when the JSON field is an
    array (the code checks `Array.isArray`), `none` otherwise; the two id
    fields are `none` when absent. -/
structure CatalogEntry where
  TrustFactors : Option (List String)
  TeamsAppId : Option String
  OfficeAssetId : Option String
deriving DecidableEq

/-- Outcome of the single outbound fetch: the `ok` flag of the response
    and, when consumed, the JSON-decoded array body. -/
structure FetchResponse where
  ok : Bool
  body : List CatalogEntry
deriving DecidableEq, Inhabited

/-- Shallow embedding of one call to `fetchTrustCatalog` (lines 25-33),
    as a function of the current cache cell and of the response the
    network would give.  Returns the call result (`Except` models the
    thrown `Error("Failed to fetch catalog")`), the new cache cell, and
    whether an outbound fetch was issued by this call. -/
def fetchTrustCatalog (cache : Option (List CatalogEntry)) (resp : FetchResponse) :
    Except String (List CatalogEntry) × Option (List CatalogEntry) × Bool :=
  match cache with
  | some c => (Except.ok c, some c, false)
  | none =>
      if resp.ok then (Except.ok resp.body, some resp.body, true)
      else (Except.error "Failed to fetch catalog", none, true)

/-- Sequential executions of `fetchTrustCatalog`: one call per listed
    network response, threading the cache cell; each output records the
    call result and whether that call issued a fetch. -/
def runCalls (cache : Option (List CatalogEntry)) :
    List FetchResponse → List (Except String (List CatalogEntry) × Bool)
  | [] => []
  | r :: rs =>
      let step := fetchTrustCatalog cache r
      (step.1, step.2.2) :: runCalls step.2.1 rs

/-- Default output tuple used with `List.getD` in cache theorems. -/
def defaultOut : Except String (List CatalogEntry) × Bool :=
  (Except.error "", false)

theorem runCalls_length (cache : Option (List CatalogEntry)) (rs : List FetchResponse) :
    (runCalls cache rs).length = rs.length := by
  induction rs generalizing cache with
  | nil => rfl
  | cons r rs ih => simp [runCalls, ih]

/-- Once the cache holds a value, every later call returns it with no
    fetch. -/
theorem runCalls_cached (c : List CatalogEntry) (rs : List FetchResponse) (i : Nat)
    (hi : i < rs.length) :
    (runCalls (some c) rs).getD i defaultOut = (Except.ok c, false) := by
  induction rs generalizing i with
  | nil => simp at hi
  | cons r rs ih =>
      cases i with
      | zero => simp [runCalls, fetchTrustCatalog]
      | succ i =>
          simp only [runCalls, fetchTrustCatalog, List.getD_cons_succ]
          exact ih i (by simpa using hi)

/-! ## Concurrency model of the catalog cache first-fetch race

  The async function `fetchTrustCatalog` suspends at two points: the
  `await fetch(...)` and the `await response.json()`.  On the
  single-threaded event loop a call therefore runs as three atomic
  segments: from entry through issuing the fetch (or returning the cached
  value), from the response arriving through the `ok` check, and from the
  JSON body arriving through storing the cache and returning.  The model
  below makes each segment a step on a system state; an interleaving is a
  sequence of steps. -/

/-- Where one concurrent caller of `fetchTrustCatalog` stands. -/
inductive CallerPhase where
  | ready
  | awaitFetch
  | awaitJson (body : List CatalogEntry)
  | doneOk (c : List CatalogEntry)
  | doneErr
deriving DecidableEq

/-- Global state shared by concurrent callers: the module-level cache
    cell, the number of outbound fetches issued so far, and each caller
    phase. -/
structure CacheSys where
  cache : Option (List CatalogEntry)
  fetchCount : Nat
  callers : List CallerPhase
deriving DecidableEq

/-- First segment of a call (lines 26-29): consult the cache; on a hit the
    caller finishes with the cached value and no fetch, on a miss it issues
    the outbound fetch and suspends. -/
def stepStart (s : CacheSys) (i : Nat) : CacheSys :=
  match s.callers.getD i CallerPhase.doneErr with
  | CallerPhase.ready =>
      match s.cache with
      | some c => { s with callers := s.callers.set i (CallerPhase.doneOk c) }
      | none =>
          { s with
            fetchCount := s.fetchCount + 1
            callers := s.callers.set i CallerPhase.awaitFetch }
  | _ => s

/-- Second segment (line 30): the fetch resolves; on a non-ok status the
    call throws, otherwise it suspends on the JSON body. -/
def stepFetchDone (s : CacheSys) (i : Nat) (resp : FetchResponse) : CacheSys :=
  match s.callers.getD i CallerPhase.doneErr with
  | CallerPhase.awaitFetch =>
      if resp.ok then { s with callers := s.callers.set i (CallerPhase.awaitJson resp.body) }
      else { s with callers := s.callers.set i CallerPhase.doneErr }
  | _ => s

/-- Third segment (lines 31-32): the JSON body arrives; the caller stores
    it into the cache cell and finishes. -/
def stepJsonDone (s : CacheSys) (i : Nat) : CacheSys :=
  match s.callers.getD i CallerPhase.doneErr with
  | CallerPhase.awaitJson body =>
      { s with
        cache := some body
        callers := s.callers.set i (CallerPhase.doneOk body) }
  | _ => s

/-- Initial state with two concurrent callers and an unpopulated cache. -/
def twoCallerInit : CacheSys :=
  { cache := none, fetchCount := 0, callers := [CallerPhase.ready, CallerPhase.ready] }

/-! ## Trust filter tool (stdio source, get-appsWithTrustFilter, lines 46-77) -/

/-- JS truthiness of an optional string: `undefined` and the empty string
    are falsy, every other string truthy. -/
def truthyStr : Option String → Bool
  | none => false
  | some s => s ≠ ""

/-- Embedding of the JS expression `item.TeamsAppId || item.OfficeAssetId`
    on optional strings. -/
def jsOr (a b : Option String) : Option String :=
  if truthyStr a then a else b

/-- Embedding of the filter over `TrustFactors`
    (`Array.isArray(item.TrustFactors) && item.TrustFactors.includes(key)`). -/
def tfMatches (item : CatalogEntry) (key : String) : Bool :=
  match item.TrustFactors with
  | some tf => tf.contains key
  | none => false

/-- Shallow embedding of the `get-appsWithTrustFilter` handler body
    (lines 54-76): filter by trust factor, map through the `||` fallback,
    drop falsy ids with `.filter(Boolean)`, and render.  The final `map`
    unwraps the options that the truthiness filter has guaranteed to be
    non-empty strings. -/
def getAppsWithTrustFilter (catalog : List CatalogEntry) (key : String) : String :=
  let matchingApps :=
    (((catalog.filter (fun item => tfMatches item key)).map
        (fun item => jsOr item.TeamsAppId item.OfficeAssetId)).filter truthyStr).map
      (fun o => o.getD "")
  if matchingApps.length ≠ 0 then
    "Matching App IDs for " ++ key ++ ":\n" ++ String.intercalate "\n" matchingApps
  else
    "No apps found with trust factor: " ++ key

/-- Rendering of claim C8 as stated, for comparison with the source
    embedding: map each kept entry to `TeamsAppId` if present (in the data
    model sense: not absent) else `OfficeAssetId`, and drop an entry only
    when neither id is present. -/
def getAppsWithTrustFilterClaim (catalog : List CatalogEntry) (key : String) : String :=
  let ids := catalog.filterMap (fun item =>
    if tfMatches item key then
      match item.TeamsAppId with
      | some t => some t
      | none => item.OfficeAssetId
    else none)
  if ids.length ≠ 0 then
    "Matching App IDs for " ++ key ++ ":\n" ++ String.intercalate "\n" ids
  else
    "No apps found with trust factor: " ++ key

/-- Amended single-pass rendering of the handler: the selected id is
    `TeamsAppId` when that is present and non-empty, else `OfficeAssetId`,
    and the entry is dropped when the selected id is absent or empty. -/
def getAppsWithTrustFilterAmended (catalog : List CatalogEntry) (key : String) : String :=
  let ids := catalog.filterMap (fun item =>
    if tfMatches item key then
      match jsOr item.TeamsAppId item.OfficeAssetId with
      | some t => if t ≠ "" then some t else none
      | none => none
    else none)
  if ids.length ≠ 0 then
    "Matching App IDs for " ++ key ++ ":\n" ++ String.intercalate "\n" ids
  else
    "No apps found with trust factor: " ++ key

theorem filter_pipeline_eq (catalog : List CatalogEntry) (key : String) :
    (((catalog.filter (fun item => tfMatches item key)).map
        (fun item => jsOr item.TeamsAppId item.OfficeAssetId)).filter truthyStr).map
      (fun o => o.getD "") =
    catalog.filterMap (fun item =>
      if tfMatches item key then
        match jsOr item.TeamsAppId item.OfficeAssetId with
        | some t => if t ≠ "" then some t else none
        | none => none
      else none) := by
  induction catalog with
  | nil => rfl
  | cons item rest ih =>
      by_cases hm : tfMatches item key
      · simp only [List.filter_cons, hm, if_pos, List.map_cons, List.filter_cons,
          List.filterMap_cons, List.map]
        cases hj : jsOr item.TeamsAppId item.OfficeAssetId with
        | none => simpa [truthyStr, hj] using ih
        | some t =>
            by_cases ht : t = ""
            · simpa [truthyStr, hj, ht] using ih
            · simpa [truthyStr, hj, ht] using ih
      · simpa [List.filter_cons, hm, List.filterMap_cons] using ih

/-- Calls made against an empty cache while every earlier response failed:
    each such call issues a fetch, fails on a non-ok response, and returns
    the parsed body on an ok response. -/
theorem runCalls_retry (rs : List FetchResponse) (i : Nat) (hi : i < rs.length)
    (hfail : ∀ j, j < i → (rs.getD j default).ok = false) :
    ((runCalls none rs).getD i defaultOut).2 = true ∧
    ((rs.getD i default).ok = false →
      ((runCalls none rs).getD i defaultOut).1 = Except.error "Failed to fetch catalog") ∧
    ((rs.getD i default).ok = true →
      ((runCalls none rs).getD i defaultOut).1 = Except.ok (rs.getD i default).body) := by
  induction rs generalizing i with
  | nil => simp at hi
  | cons r rs ih =>
      cases i with
      | zero =>
          cases hok : r.ok <;>
            simp [runCalls, fetchTrustCatalog, hok]
      | succ i =>
          have h0 : r.ok = false := hfail 0 (Nat.succ_pos i)
          have hrec := ih i (by simpa using hi)
            (fun j hj => hfail (j + 1) (Nat.succ_lt_succ hj))
          simpa [runCalls, fetchTrustCatalog, h0] using hrec

/-- After the first successful response the cache is populated: every later
    call returns that same body and issues no fetch. -/
theorem runCalls_memoized (rs : List FetchResponse) (k : Nat) (hk : k < rs.length)
    (hfail : ∀ j, j < k → (rs.getD j default).ok = false)
    (hok : (rs.getD k default).ok = true)
    (i : Nat) (hki : k < i) (hi : i < rs.length) :
    (runCalls none rs).getD i defaultOut = (Except.ok (rs.getD k default).body, false) := by
  induction rs generalizing k i with
  | nil => simp at hi
  | cons r rs ih =>
      cases k with
      | zero =>
          have hr : r.ok = true := by simpa using hok
          cases i with
          | zero => exact absurd hki (Nat.lt_irrefl 0)
          | succ i =>
              have := runCalls_cached r.body rs i (by simpa using hi)
              simpa [runCalls, fetchTrustCatalog, hr] using this
      | succ k =>
          have h0 : r.ok = false := hfail 0 (Nat.succ_pos k)
          cases i with
          | zero => exact absurd hki (Nat.not_lt_zero _)
          | succ i =>
              have hrec := ih k (by simpa using hk)
                (fun j hj => hfail (j + 1) (Nat.succ_lt_succ hj))
                (by simpa using hok) i (Nat.lt_of_succ_lt_succ hki) (by simpa using hi)
              simpa [runCalls, fetchTrustCatalog, h0] using hrec

/-! ## SSE rewrite, text level (worker source, rewriteSseResponseToAbsolute lines 92-100)

  The first chunk is transformed by
  `chunkText.replace(/data:\s*(\/[^\r\n]*)/g, cb)` where the callback
  returns the text data:, one space, the origin and the captured relative
  path (the absolute-URL test inside the callback is unreachable because
  the capture always starts with a slash).  The scanner below is the
  embedding of that global regex replace: at each position it tries to
  match the literal data:, a maximal run of regex whitespace and a path
  starting with a slash running to the end of the line; on a match it
  emits the replacement and resumes after the match, otherwise it copies
  one character and moves on. -/

/-- Whitespace class of the JS regex escape used in the pattern: tab,
    line feed, vertical tab, form feed, carriage return, space, NBSP,
    Ogham space mark, the general punctuation spaces, line and paragraph
    separators, narrow and medium spaces, ideographic space and BOM. -/
def isJsWs (c : Char) : Bool :=
  c = ' ' || c = '\t' || c = '\n' || c = '\r' ||
  c = Char.ofNat 11 || c = Char.ofNat 12 ||
  c = Char.ofNat 0xA0 || c = Char.ofNat 0x1680 ||
  (0x2000 ≤ c.toNat && c.toNat ≤ 0x200A) ||
  c = Char.ofNat 0x2028 || c = Char.ofNat 0x2029 || c = Char.ofNat 0x202F ||
  c = Char.ofNat 0x205F || c = Char.ofNat 0x3000 || c = Char.ofNat 0xFEFF

/-- The literal part of the pattern. -/
def dataLit : List Char := ['d', 'a', 't', 'a', ':']

/-- Character class of the capture group: everything but carriage return
    and line feed. -/
def notCrLf (c : Char) : Bool := c ≠ '\r' && c ≠ '\n'

/-- Whether the regex matches at the head of the list: the literal data:,
    then a maximal whitespace run, then a slash. -/
def matchesHere (l : List Char) : Bool :=
  dataLit.isPrefixOf l &&
    (match (l.drop 5).dropWhile isJsWs with
     | '/' :: _ => true
     | _ => false)

/-- Whether the regex matches anywhere in the list. -/
def hasRelMatch : List Char → Bool
  | [] => false
  | c :: rest => matchesHere (c :: rest) || hasRelMatch rest

/-- One scanning pass of the global regex replace, with explicit fuel so
    that the recursion is structural (the fuel never runs out when it
    starts at the length of the list, since every step consumes at least
    one character).  On a match the scanner emits data:, one space, the
    origin and the captured path, then resumes after the match; otherwise
    it copies one character and moves on. -/
def rewriteCharsAux (origin : List Char) : Nat → List Char → List Char
  | _, [] => []
  | 0, l => l
  | fuel + 1, c :: rest =>
      if dataLit.isPrefixOf (c :: rest) then
        match ((c :: rest).drop 5).dropWhile isJsWs with
        | '/' :: xs =>
            dataLit ++ ' ' :: origin ++ '/' :: xs.takeWhile notCrLf ++
              rewriteCharsAux origin fuel (xs.dropWhile notCrLf)
        | _ => c :: rewriteCharsAux origin fuel rest
      else c :: rewriteCharsAux origin fuel rest

/-- Embedding of the global regex replace applied to the first chunk. -/
def rewriteChars (origin l : List Char) : List Char :=
  rewriteCharsAux origin l.length l

/-- String wrapper of the first-chunk rewrite. -/
def rewriteText (origin chunkText : String) : String :=
  String.mk (rewriteChars origin.data chunkText.data)

/-- The fuel is irrelevant as long as it covers the length of the list. -/
theorem rewriteCharsAux_congr (origin : List Char) :
    ∀ (fuel₁ fuel₂ : Nat) (l : List Char), l.length ≤ fuel₁ → l.length ≤ fuel₂ →
      rewriteCharsAux origin fuel₁ l = rewriteCharsAux origin fuel₂ l := by
  intro fuel₁
  induction fuel₁ with
  | zero =>
      intro fuel₂ l h₁ _
      cases l with
      | nil => cases fuel₂ <;> rfl
      | cons c r => simp at h₁
  | succ f ih =>
      intro fuel₂ l h₁ h₂
      cases l with
      | nil => cases fuel₂ <;> rfl
      | cons c rest =>
          cases fuel₂ with
          | zero => simp at h₂
          | succ f₂ =>
              have hrest : rest.length ≤ f := by
                simp only [List.length_cons] at h₁; omega
              have hrest₂ : rest.length ≤ f₂ := by
                simp only [List.length_cons] at h₂; omega
              rw [rewriteCharsAux, rewriteCharsAux]
              by_cases hp : dataLit.isPrefixOf (c :: rest)
              · simp only [hp, if_true]
                split
                · rename_i xs heq
                  have hxs : (xs.dropWhile notCrLf).length ≤ rest.length := by
                    have hlen : ('/' :: xs).length ≤ ((c :: rest).drop 5).length := by
                      rw [← heq]; exact (List.dropWhile_sublist _).length_le
                    have hd : (xs.dropWhile notCrLf).length ≤ xs.length :=
                      (List.dropWhile_sublist _).length_le
                    simp only [List.length_cons, List.length_drop] at hlen
                    omega
                  exact congrArg _ (ih f₂ (xs.dropWhile notCrLf)
                    (le_trans hxs hrest) (le_trans hxs hrest₂))
                · exact congrArg (c :: ·) (ih f₂ rest hrest hrest₂)
              · simp only [hp, Bool.false_eq_true, if_false]
                exact congrArg (c :: ·) (ih f₂ rest hrest hrest₂)

/-- Unfolding of the scanner at a position where the pattern matches. -/
theorem rewriteChars_step_match (origin : List Char) (c : Char) (rest xs : List Char)
    (hp : dataLit.isPrefixOf (c :: rest) = true)
    (hsc : ((c :: rest).drop 5).dropWhile isJsWs = '/' :: xs) :
    rewriteChars origin (c :: rest) =
      dataLit ++ ' ' :: origin ++ '/' :: xs.takeWhile notCrLf ++
        rewriteChars origin (xs.dropWhile notCrLf) := by
  have hxs : (xs.dropWhile notCrLf).length ≤ rest.length := by
    have hlen : ('/' :: xs).length ≤ ((c :: rest).drop 5).length := by
      rw [← hsc]; exact (List.dropWhile_sublist _).length_le
    have hd : (xs.dropWhile notCrLf).length ≤ xs.length :=
      (List.dropWhile_sublist _).length_le
    simp only [List.length_cons, List.length_drop] at hlen
    omega
  show rewriteCharsAux origin (rest.length + 1) (c :: rest) = _
  rw [rewriteCharsAux]
  simp only [hp, if_true]
  rw [hsc]
  exact congrArg (fun t => dataLit ++ ' ' :: origin ++ '/' :: xs.takeWhile notCrLf ++ t)
    (rewriteCharsAux_congr origin rest.length (xs.dropWhile notCrLf).length
      (xs.dropWhile notCrLf) hxs (le_refl _))

/-- Unfolding of the scanner at a position where the pattern does not
    match: the character is copied. -/
theorem rewriteChars_step_nomatch (origin : List Char) (c : Char) (rest : List Char)
    (h : matchesHere (c :: rest) = false) :
    rewriteChars origin (c :: rest) = c :: rewriteChars origin rest := by
  show rewriteCharsAux origin (rest.length + 1) (c :: rest) = _
  rw [rewriteCharsAux]
  by_cases hp : dataLit.isPrefixOf (c :: rest)
  · rw [matchesHere, hp, Bool.true_and] at h
    simp only [hp, if_true]
    split
    · rename_i xs heq
      rw [heq] at h
      simp at h
    · rfl
  · simp only [hp, Bool.false_eq_true, if_false]
    rfl

/-- Where the regex does not match at all, the replace is the identity. -/
theorem rewriteChars_id_of_no_match (origin : List Char) :
    ∀ l : List Char, hasRelMatch l = false → rewriteChars origin l = l := by
  intro l
  induction l with
  | nil => intro _; rfl
  | cons c rest ih =>
      intro h
      rw [hasRelMatch, Bool.or_eq_false_iff] at h
      rw [rewriteChars_step_nomatch origin c rest h.1, ih h.2]

/-- Dropping over an all-satisfying front list continues into the back. -/
theorem dropWhile_append_all {p : Char → Bool} {l₁ : List Char} (l₂ : List Char)
    (h : ∀ c ∈ l₁, p c = true) :
    (l₁ ++ l₂).dropWhile p = l₂.dropWhile p := by
  induction l₁ with
  | nil => rfl
  | cons x xs ih =>
      simp only [List.cons_append, List.dropWhile_cons, h x (List.mem_cons_self x xs), if_true]
      exact ih (fun c hc => h c (List.mem_cons_of_mem x hc))

/-- Taking over an all-satisfying front list continues into the back. -/
theorem takeWhile_append_all {p : Char → Bool} {l₁ : List Char} (l₂ : List Char)
    (h : ∀ c ∈ l₁, p c = true) :
    (l₁ ++ l₂).takeWhile p = l₁ ++ l₂.takeWhile p := by
  induction l₁ with
  | nil => rfl
  | cons x xs ih =>
      simp only [List.cons_append, List.takeWhile_cons, h x (List.mem_cons_self x xs), if_true,
        ih (fun c hc => h c (List.mem_cons_of_mem x hc))]

/-- A head occurrence of the pattern — the literal data:, an arbitrary run
    of whitespace, a slash path running to the end of the line — is
    replaced by data:, exactly one space, the origin and the path, and the
    scan continues after the line break: the replace is global and
    normalizes the whitespace between data: and the path to one space. -/
theorem rewriteChars_match_head (origin ws relBody rest : List Char)
    (hws : ∀ c ∈ ws, isJsWs c = true)
    (hrel : ∀ c ∈ relBody, notCrLf c = true) :
    rewriteChars origin (dataLit ++ (ws ++ ('/' :: (relBody ++ ('\n' :: rest))))) =
      dataLit ++ (' ' :: (origin ++ ('/' :: (relBody ++ ('\n' :: rewriteChars origin rest))))) := by
  have hscrut :
      ((('d' : Char) :: 'a' :: 't' :: 'a' :: ':' ::
          (ws ++ ('/' :: (relBody ++ ('\n' :: rest))))).drop 5).dropWhile isJsWs
        = '/' :: (relBody ++ ('\n' :: rest)) := by
    show (ws ++ ('/' :: (relBody ++ ('\n' :: rest)))).dropWhile isJsWs = _
    rw [dropWhile_append_all _ hws, List.dropWhile_cons]
    simp [show isJsWs '/' = false from by decide]
  have hp : dataLit.isPrefixOf
      ('d' :: 'a' :: 't' :: 'a' :: ':' :: (ws ++ ('/' :: (relBody ++ ('\n' :: rest))))) = true := by
    simp [dataLit, List.isPrefixOf]
  have hnl : rewriteChars origin ('\n' :: rest) = '\n' :: rewriteChars origin rest := by
    refine rewriteChars_step_nomatch origin '\n' rest ?_
    have hq : dataLit.isPrefixOf ('\n' :: rest) = false := by
      simp [dataLit, List.isPrefixOf]
    rw [matchesHere, hq, Bool.false_and]
  show rewriteChars origin
      ('d' :: 'a' :: 't' :: 'a' :: ':' :: (ws ++ ('/' :: (relBody ++ ('\n' :: rest))))) = _
  rw [rewriteChars_step_match origin 'd' _ _ hp hscrut]
  rw [takeWhile_append_all _ hrel, dropWhile_append_all _ hrel]
  simp [List.takeWhile_cons, List.dropWhile_cons, notCrLf, hnl, dataLit]

/-- The pattern cannot match at a position whose character is not the
    letter d. -/
theorem matchesHere_false_of_head_ne (c : Char) (rest : List Char)
    (hc : (('d' : Char) == c) = false) :
    matchesHere (c :: rest) = false := by
  rw [matchesHere]
  have hpre : dataLit.isPrefixOf (c :: rest) = false := by
    show (('d' : Char) == c && dataLit.tail.isPrefixOf rest) = false
    rw [hc, Bool.false_and]
  rw [hpre, Bool.false_and]

/-- The pattern does not match at a data: occurrence that is followed,
    after one space, by a letter h (the start of an absolute URL) instead
    of a slash. -/
theorem matchesHere_false_data_abs (u : List Char) :
    matchesHere ('d' :: 'a' :: 't' :: 'a' :: ':' :: ' ' :: 'h' :: u) = false := by
  rw [matchesHere]
  have hpre : dataLit.isPrefixOf ('d' :: 'a' :: 't' :: 'a' :: ':' :: ' ' :: 'h' :: u) = true := by
    simp [dataLit, List.isPrefixOf]
  rw [hpre, Bool.true_and]
  show (match ((' ' :: 'h' :: u : List Char)).dropWhile isJsWs with
    | '/' :: _ => true | _ => false) = false
  rw [List.dropWhile_cons]
  simp only [show isJsWs ' ' = true from by decide, if_true, List.dropWhile_cons,
    show isJsWs 'h' = false from by decide, Bool.false_eq_true, if_false]
  split
  · rename_i heq
    exact absurd (List.head_eq_of_cons_eq heq) (by decide)
  · rfl

/-- A first chunk consisting of a data: line that already carries an
    absolute URL (any line whose advertised target starts with http, which
    covers both http and https schemes) is left unchanged by the rewrite,
    provided the remainder of the chunk contains no relative match
    either. -/
theorem rewriteChars_abs_unchanged (origin u : List Char)
    (hu : (['h', 't', 't', 'p'] : List Char).isPrefixOf u = true)
    (hnm : hasRelMatch u = false) :
    rewriteChars origin ("data: ".data ++ u) = "data: ".data ++ u := by
  cases u with
  | nil => simp [List.isPrefixOf] at hu
  | cons c u' =>
      have hc : c = 'h' := by
        have hhead : (('h' : Char) == c && (['t', 't', 'p'] : List Char).isPrefixOf u') = true := hu
        have := (Bool.and_eq_true _ _).mp hhead
        exact (beq_iff_eq.mp this.1).symm
      subst hc
      have hall : hasRelMatch ('d' :: 'a' :: 't' :: 'a' :: ':' :: ' ' :: 'h' :: u') = false := by
        rw [hasRelMatch, hasRelMatch, hasRelMatch, hasRelMatch, hasRelMatch, hasRelMatch,
          hasRelMatch]
        rw [matchesHere_false_data_abs u',
          matchesHere_false_of_head_ne 'a' _ (by decide),
          matchesHere_false_of_head_ne 't' _ (by decide),
          matchesHere_false_of_head_ne 'a' _ (by decide),
          matchesHere_false_of_head_ne ':' _ (by decide),
          matchesHere_false_of_head_ne ' ' _ (by decide),
          matchesHere_false_of_head_ne 'h' _ (by decide)]
        rw [hasRelMatch, Bool.or_eq_false_iff] at hnm
        simp [hnm.2]
      exact rewriteChars_id_of_no_match origin _ hall

/-! ## Byte-level model of the SSE rewrite filter (worker source, lines 82-105)

  The loop decodes every chunk with a fresh TextDecoder (UTF-8, non-fatal:
  invalid sequences become U+FFFD), rewrites the decoded text only while
  the firstChunk flag is set and the text is truthy (non-empty), clears
  the flag in that case, and re-encodes the text with TextEncoder before
  forwarding.  The decoder below is the WHATWG UTF-8 decoder with
  replacement; the encoder is the standard UTF-8 encoder. -/

def repl : Char := Char.ofNat 0xFFFD

def contByte (b : Nat) : Bool := 0x80 ≤ b && b ≤ 0xBF

def cont1Ok3 (b b1 : Nat) : Bool :=
  if b = 0xE0 then 0xA0 ≤ b1 && b1 ≤ 0xBF
  else if b = 0xED then 0x80 ≤ b1 && b1 ≤ 0x9F
  else contByte b1

def cont1Ok4 (b b1 : Nat) : Bool :=
  if b = 0xF0 then 0x90 ≤ b1 && b1 ≤ 0xBF
  else if b = 0xF4 then 0x80 ≤ b1 && b1 ≤ 0x8F
  else contByte b1

def decodeUtf8 : List Nat → List Char
  | [] => []
  | b :: rest =>
      if b < 0x80 then Char.ofNat b :: decodeUtf8 rest
      else if 0xC2 ≤ b && b ≤ 0xDF then
        match rest with
        | [] => [repl]
        | b1 :: rest1 =>
            if contByte b1 then
              Char.ofNat ((b - 0xC0) * 64 + (b1 - 0x80)) :: decodeUtf8 rest1
            else repl :: decodeUtf8 (b1 :: rest1)
      else if 0xE0 ≤ b && b ≤ 0xEF then
        match rest with
        | [] => [repl]
        | b1 :: rest1 =>
            if cont1Ok3 b b1 then
              match rest1 with
              | [] => [repl]
              | b2 :: rest2 =>
                  if contByte b2 then
                    Char.ofNat ((b - 0xE0) * 4096 + (b1 - 0x80) * 64 + (b2 - 0x80)) ::
                      decodeUtf8 rest2
                  else repl :: decodeUtf8 (b2 :: rest2)
            else repl :: decodeUtf8 (b1 :: rest1)
      else if 0xF0 ≤ b && b ≤ 0xF4 then
        match rest with
        | [] => [repl]
        | b1 :: rest1 =>
            if cont1Ok4 b b1 then
              match rest1 with
              | [] => [repl]
              | b2 :: rest2 =>
                  if contByte b2 then
                    match rest2 with
                    | [] => [repl]
                    | b3 :: rest3 =>
                        if contByte b3 then
                          Char.ofNat ((b - 0xF0) * 262144 + (b1 - 0x80) * 4096 +
                            (b2 - 0x80) * 64 + (b3 - 0x80)) :: decodeUtf8 rest3
                        else repl :: decodeUtf8 (b3 :: rest3)
                  else repl :: decodeUtf8 (b2 :: rest2)
            else repl :: decodeUtf8 (b1 :: rest1)
      else repl :: decodeUtf8 rest

def encodeChar (c : Char) : List Nat :=
  if c.toNat < 0x80 then [c.toNat]
  else if c.toNat < 0x800 then [0xC0 + c.toNat / 64, 0x80 + c.toNat % 64]
  else if c.toNat < 0x10000 then
    [0xE0 + c.toNat / 4096, 0x80 + c.toNat / 64 % 64, 0x80 + c.toNat % 64]
  else
    [0xF0 + c.toNat / 262144, 0x80 + c.toNat / 4096 % 64,
      0x80 + c.toNat / 64 % 64, 0x80 + c.toNat % 64]

def encodeUtf8 : List Char → List Nat
  | [] => []
  | c :: cs => encodeChar c ++ encodeUtf8 cs

def validUtf8 : List Nat → Bool
  | [] => true
  | b :: rest =>
      if b < 0x80 then validUtf8 rest
      else if 0xC2 ≤ b && b ≤ 0xDF then
        match rest with
        | [] => false
        | b1 :: rest1 => contByte b1 && validUtf8 rest1
      else if 0xE0 ≤ b && b ≤ 0xEF then
        match rest with
        | [] => false
        | b1 :: rest1 =>
            match rest1 with
            | [] => false
            | b2 :: rest2 => cont1Ok3 b b1 && contByte b2 && validUtf8 rest2
      else if 0xF0 ≤ b && b ≤ 0xF4 then
        match rest with
        | [] => false
        | b1 :: rest1 =>
            match rest1 with
            | [] => false
            | b2 :: rest2 =>
                match rest2 with
                | [] => false
                | b3 :: rest3 => cont1Ok4 b b1 && contByte b2 && contByte b3 && validUtf8 rest3
      else false

theorem toNat_ofNat_valid (n : Nat) (h : n.isValidChar) : (Char.ofNat n).toNat = n := by
  unfold Char.ofNat
  rw [dif_pos h]
  unfold Char.ofNatAux Char.toNat
  simp [UInt32.toNat]


theorem decodeUtf8_cons (b : Nat) (rest : List Nat) :
    decodeUtf8 (b :: rest) =
if b < 0x80 then Char.ofNat b :: decodeUtf8 rest
      else if 0xC2 ≤ b && b ≤ 0xDF then
        match rest with
        | [] => [repl]
        | b1 :: rest1 =>
            if contByte b1 then
              Char.ofNat ((b - 0xC0) * 64 + (b1 - 0x80)) :: decodeUtf8 rest1
            else repl :: decodeUtf8 (b1 :: rest1)
      else if 0xE0 ≤ b && b ≤ 0xEF then
        match rest with
        | [] => [repl]
        | b1 :: rest1 =>
            if cont1Ok3 b b1 then
              match rest1 with
              | [] => [repl]
              | b2 :: rest2 =>
                  if contByte b2 then
                    Char.ofNat ((b - 0xE0) * 4096 + (b1 - 0x80) * 64 + (b2 - 0x80)) ::
                      decodeUtf8 rest2
                  else repl :: decodeUtf8 (b2 :: rest2)
            else repl :: decodeUtf8 (b1 :: rest1)
      else if 0xF0 ≤ b && b ≤ 0xF4 then
        match rest with
        | [] => [repl]
        | b1 :: rest1 =>
            if cont1Ok4 b b1 then
              match rest1 with
              | [] => [repl]
              | b2 :: rest2 =>
                  if contByte b2 then
                    match rest2 with
                    | [] => [repl]
                    | b3 :: rest3 =>
                        if contByte b3 then
                          Char.ofNat ((b - 0xF0) * 262144 + (b1 - 0x80) * 4096 +
                            (b2 - 0x80) * 64 + (b3 - 0x80)) :: decodeUtf8 rest3
                        else repl :: decodeUtf8 (b3 :: rest3)
                  else repl :: decodeUtf8 (b2 :: rest2)
            else repl :: decodeUtf8 (b1 :: rest1)
      else repl :: decodeUtf8 rest := by rw [decodeUtf8.eq_def]

theorem validUtf8_cons (b : Nat) (rest : List Nat) :
    validUtf8 (b :: rest) =
if b < 0x80 then validUtf8 rest
      else if 0xC2 ≤ b && b ≤ 0xDF then
        match rest with
        | [] => false
        | b1 :: rest1 => contByte b1 && validUtf8 rest1
      else if 0xE0 ≤ b && b ≤ 0xEF then
        match rest with
        | [] => false
        | b1 :: rest1 =>
            match rest1 with
            | [] => false
            | b2 :: rest2 => cont1Ok3 b b1 && contByte b2 && validUtf8 rest2
      else if 0xF0 ≤ b && b ≤ 0xF4 then
        match rest with
        | [] => false
        | b1 :: rest1 =>
            match rest1 with
            | [] => false
            | b2 :: rest2 =>
                match rest2 with
                | [] => false
                | b3 :: rest3 => cont1Ok4 b b1 && contByte b2 && contByte b3 && validUtf8 rest3
      else false := by rw [validUtf8.eq_def]

theorem contByte_bounds {b : Nat} (h : contByte b = true) : 0x80 ≤ b ∧ b ≤ 0xBF := by
  unfold contByte at h
  simpa using h

theorem cont1Ok3_bounds {b b1 : Nat} (h : cont1Ok3 b b1 = true) :
    (b = 0xE0 ∧ 0xA0 ≤ b1 ∧ b1 ≤ 0xBF) ∨ (b = 0xED ∧ 0x80 ≤ b1 ∧ b1 ≤ 0x9F) ∨
    (b ≠ 0xE0 ∧ b ≠ 0xED ∧ 0x80 ≤ b1 ∧ b1 ≤ 0xBF) := by
  unfold cont1Ok3 at h
  by_cases he : b = 0xE0
  · rw [if_pos he] at h
    exact Or.inl ⟨he, by simpa using h⟩
  · rw [if_neg he] at h
    by_cases hd : b = 0xED
    · rw [if_pos hd] at h
      exact Or.inr (Or.inl ⟨hd, by simpa using h⟩)
    · rw [if_neg hd] at h
      exact Or.inr (Or.inr ⟨he, hd, contByte_bounds h⟩)

theorem cont1Ok4_bounds {b b1 : Nat} (h : cont1Ok4 b b1 = true) :
    (b = 0xF0 ∧ 0x90 ≤ b1 ∧ b1 ≤ 0xBF) ∨ (b = 0xF4 ∧ 0x80 ≤ b1 ∧ b1 ≤ 0x8F) ∨
    (b ≠ 0xF0 ∧ b ≠ 0xF4 ∧ 0x80 ≤ b1 ∧ b1 ≤ 0xBF) := by
  unfold cont1Ok4 at h
  by_cases he : b = 0xF0
  · rw [if_pos he] at h
    exact Or.inl ⟨he, by simpa using h⟩
  · rw [if_neg he] at h
    by_cases hd : b = 0xF4
    · rw [if_pos hd] at h
      exact Or.inr (Or.inl ⟨hd, by simpa using h⟩)
    · rw [if_neg hd] at h
      exact Or.inr (Or.inr ⟨he, hd, contByte_bounds h⟩)

theorem utf8_roundtrip_aux :
    ∀ (n : Nat) (l : List Nat), l.length ≤ n → validUtf8 l = true →
      encodeUtf8 (decodeUtf8 l) = l := by
  intro n
  induction n with
  | zero =>
      intro l h _
      cases l with
      | nil => rfl
      | cons b rest => simp at h
  | succ n ih =>
      intro l h hv
      cases l with
      | nil => rfl
      | cons b rest =>
          simp only [List.length_cons, Nat.add_le_add_iff_right] at h
          rw [validUtf8_cons] at hv
          rw [decodeUtf8_cons]
          by_cases h1 : b < 0x80
          · rw [if_pos h1] at hv
            rw [if_pos h1, encodeUtf8]
            have htn : (Char.ofNat b).toNat = b :=
              toNat_ofNat_valid b (Or.inl (by omega))
            have henc : encodeChar (Char.ofNat b) = [b] := by
              unfold encodeChar
              rw [htn, if_pos h1]
            rw [henc, ih rest h hv]
            rfl
          · rw [if_neg h1] at hv ⊢
            by_cases h2 : (0xC2 ≤ b && b ≤ 0xDF) = true
            · rw [if_pos h2] at hv ⊢
              have hb : 0xC2 ≤ b ∧ b ≤ 0xDF := by simpa using h2
              cases rest with
              | nil => simp at hv
              | cons b1 rest1 =>
                  dsimp only at hv ⊢
                  have hc1 : contByte b1 = true := by
                    by_contra hc
                    rw [Bool.not_eq_true] at hc
                    rw [hc, Bool.false_and] at hv
                    exact Bool.noConfusion hv
                  rw [hc1, Bool.true_and] at hv
                  have hb1 := contByte_bounds hc1
                  rw [if_pos hc1, encodeUtf8]
                  have hval : Nat.isValidChar ((b - 0xC0) * 64 + (b1 - 0x80)) :=
                    Or.inl (by omega)
                  have htn := toNat_ofNat_valid _ hval
                  have henc : encodeChar (Char.ofNat ((b - 0xC0) * 64 + (b1 - 0x80))) =
                      [b, b1] := by
                    unfold encodeChar
                    rw [htn, if_neg (by omega), if_pos (by omega)]
                    simp only [List.cons.injEq, and_true]
                    omega
                  rw [henc, ih rest1 (by simp at h; omega) hv]
                  rfl
            · rw [if_neg h2] at hv ⊢
              by_cases h3 : (0xE0 ≤ b && b ≤ 0xEF) = true
              · rw [if_pos h3] at hv ⊢
                have hb : 0xE0 ≤ b ∧ b ≤ 0xEF := by simpa using h3
                cases rest with
                | nil => simp at hv
                | cons b1 rest1 =>
                    cases rest1 with
                    | nil => simp at hv
                    | cons b2 rest2 =>
                        dsimp only at hv ⊢
                        have hc1 : cont1Ok3 b b1 = true := by
                          by_contra hc
                          rw [Bool.not_eq_true] at hc
                          rw [hc, Bool.false_and, Bool.false_and] at hv
                          exact Bool.noConfusion hv
                        have hc2 : contByte b2 = true := by
                          by_contra hc
                          rw [Bool.not_eq_true] at hc
                          rw [hc1, hc, Bool.true_and, Bool.false_and] at hv
                          exact Bool.noConfusion hv
                        rw [hc1, hc2, Bool.true_and, Bool.true_and] at hv
                        have hb2 := contByte_bounds hc2
                        have hb1 := cont1Ok3_bounds hc1
                        rw [if_pos hc1, if_pos hc2, encodeUtf8]
                        have hval : Nat.isValidChar
                            ((b - 0xE0) * 4096 + (b1 - 0x80) * 64 + (b2 - 0x80)) := by
                          rcases hb1 with ⟨he, ha, hbb⟩ | ⟨he, ha, hbb⟩ | ⟨hne1, hne2, ha, hbb⟩
                          · exact Or.inl (by omega)
                          · exact Or.inl (by omega)
                          · by_cases hlow : b ≤ 0xEC
                            · exact Or.inl (by omega)
                            · refine Or.inr ⟨by omega, by omega⟩
                        have htn := toNat_ofNat_valid _ hval
                        have henc : encodeChar (Char.ofNat
                            ((b - 0xE0) * 4096 + (b1 - 0x80) * 64 + (b2 - 0x80))) =
                            [b, b1, b2] := by
                          unfold encodeChar
                          have hlo : ¬ ((b - 0xE0) * 4096 + (b1 - 0x80) * 64 + (b2 - 0x80)
                              < 0x800) := by
                            rcases hb1 with ⟨he, ha, hbb⟩ | ⟨he, ha, hbb⟩ |
                              ⟨hne1, hne2, ha, hbb⟩
                            · omega
                            · omega
                            · have : 0xE1 ≤ b := by omega
                              omega
                          rw [htn, if_neg (by omega), if_neg hlo, if_pos (by omega)]
                          simp only [List.cons.injEq, and_true]
                          omega
                        rw [henc, ih rest2 (by simp at h; omega) hv]
                        rfl
              · rw [if_neg h3] at hv ⊢
                by_cases h4 : (0xF0 ≤ b && b ≤ 0xF4) = true
                · rw [if_pos h4] at hv ⊢
                  have hb : 0xF0 ≤ b ∧ b ≤ 0xF4 := by simpa using h4
                  cases rest with
                  | nil => simp at hv
                  | cons b1 rest1 =>
                      cases rest1 with
                      | nil => simp at hv
                      | cons b2 rest2 =>
                          cases rest2 with
                          | nil => simp at hv
                          | cons b3 rest3 =>
                              dsimp only at hv ⊢
                              have hc1 : cont1Ok4 b b1 = true := by
                                by_contra hc
                                rw [Bool.not_eq_true] at hc
                                rw [hc, Bool.false_and, Bool.false_and, Bool.false_and] at hv
                                exact Bool.noConfusion hv
                              have hc2 : contByte b2 = true := by
                                by_contra hc
                                rw [Bool.not_eq_true] at hc
                                rw [hc1, hc, Bool.true_and, Bool.false_and,
                                  Bool.false_and] at hv
                                exact Bool.noConfusion hv
                              have hc3 : contByte b3 = true := by
                                by_contra hc
                                rw [Bool.not_eq_true] at hc
                                rw [hc1, hc2, hc, Bool.true_and, Bool.true_and,
                                  Bool.false_and] at hv
                                exact Bool.noConfusion hv
                              rw [hc1, hc2, hc3, Bool.true_and, Bool.true_and,
                                Bool.true_and] at hv
                              have hb2 := contByte_bounds hc2
                              have hb3 := contByte_bounds hc3
                              have hb1 := cont1Ok4_bounds hc1
                              rw [if_pos hc1, if_pos hc2, if_pos hc3, encodeUtf8]
                              have hval : Nat.isValidChar ((b - 0xF0) * 262144 +
                                  (b1 - 0x80) * 4096 + (b2 - 0x80) * 64 + (b3 - 0x80)) := by
                                rcases hb1 with ⟨he, ha, hbb⟩ | ⟨he, ha, hbb⟩ |
                                  ⟨hne1, hne2, ha, hbb⟩
                                · exact Or.inr ⟨by omega, by omega⟩
                                · exact Or.inr ⟨by omega, by omega⟩
                                · exact Or.inr ⟨by omega, by omega⟩
                              have htn := toNat_ofNat_valid _ hval
                              have henc : encodeChar (Char.ofNat ((b - 0xF0) * 262144 +
                                  (b1 - 0x80) * 4096 + (b2 - 0x80) * 64 + (b3 - 0x80))) =
                                  [b, b1, b2, b3] := by
                                unfold encodeChar
                                have hge : ¬ ((b - 0xF0) * 262144 + (b1 - 0x80) * 4096 +
                                    (b2 - 0x80) * 64 + (b3 - 0x80) < 0x10000) := by
                                  rcases hb1 with ⟨he, ha, hbb⟩ | ⟨he, ha, hbb⟩ |
                                    ⟨hne1, hne2, ha, hbb⟩
                                  · omega
                                  · omega
                                  · have : 0xF1 ≤ b := by omega
                                    omega
                                rw [htn, if_neg (by omega), if_neg (by omega), if_neg hge]
                                simp only [List.cons.injEq, and_true]
                                omega
                              rw [henc, ih rest3 (by simp at h; omega) hv]
                              rfl
                · rw [if_neg h4] at hv
                  exact Bool.noConfusion hv

theorem utf8_roundtrip (l : List Nat) (h : validUtf8 l = true) :
    encodeUtf8 (decodeUtf8 l) = l :=
  utf8_roundtrip_aux l.length l (le_refl _) h

/-! ## The chunk loop -/

/-- Encoding of a string literal, used to write concrete byte chunks. -/
def strBytes (s : String) : List Nat := encodeUtf8 s.data

/-- One iteration of the chunk loop: decode, rewrite when the firstChunk
    flag is set and the decoded text is truthy (non-empty), re-encode;
    returns the forwarded bytes and the new flag. -/
def processChunk (origin : String) (firstChunk : Bool) (chunk : List Nat) :
    List Nat × Bool :=
  let chunkText := decodeUtf8 chunk
  if firstChunk && !chunkText.isEmpty then
    (encodeUtf8 (rewriteChars origin.data chunkText), false)
  else (encodeUtf8 chunkText, firstChunk)

/-- The whole body transform of rewriteSseResponseToAbsolute: the chunk
    loop threaded over the list of chunks read from the stream, starting
    from a given firstChunk flag (the source initializes it to true). -/
def rewriteSseStream (origin : String) : Bool → List (List Nat) → List (List Nat)
  | _, [] => []
  | firstChunk, c :: cs =>
      let r := processChunk origin firstChunk c
      r.1 :: rewriteSseStream origin r.2 cs

/-- Once the flag is cleared, every chunk is forwarded as the re-encoding
    of its decoding, with no rewrite. -/
theorem rewriteSseStream_pass (origin : String) (cs : List (List Nat)) :
    rewriteSseStream origin false cs = cs.map (fun ck => encodeUtf8 (decodeUtf8 ck)) := by
  induction cs with
  | nil => rfl
  | cons c cs ih => simp [rewriteSseStream, processChunk, ih]

/-! ## Claim theorems -/

/-- Claim C1 (code-bug evidence).  The fetch handler branches on the
    normalized path alone and never inspects the request method, so a POST
    to /mcp is caught by the first branch and delegated to the stream-open
    action through the SSE rewrite filter, not to the message-post action;
    the code thereby contradicts its own routing comment, which documents
    POST /mcp as an alias for /sse/message handling. -/
theorem c1_route_postMcp_streamOpen :
    route "POST" "/mcp" = RouteAction.streamOpen ∧
    route "POST" "/mcp" ≠ RouteAction.messagePost ∧
    route "GET" "/mcp" = RouteAction.streamOpen ∧
    route "GET" "/mcp/" = route "GET" "/mcp" := by decide

/-- Claim C2 (code-bug evidence).  The origin expression of line 80, read
    under the evident intended binding of the free identifier `request`,
    selects the Host header when it is present and falls back to the URL
    host only when the header is absent; in the source as written that
    identifier is not in scope, so the line cannot actually run. -/
theorem c2_origin_selection :
    (∀ protocol host urlHost,
      computeOrigin protocol (some host) urlHost = protocol ++ "//" ++ host) ∧
    (∀ protocol urlHost,
      computeOrigin protocol none urlHost = protocol ++ "//" ++ urlHost) :=
  ⟨fun _ _ _ => rfl, fun _ _ => rfl⟩

/-- Claim C9.  For every rendering function and every dividend, the
    calculate handler on divide with divisor zero returns the single text
    block with exactly the text Error: Cannot divide by zero, as a
    successful (non-error) result; the result does not depend on the
    dividend or on the number renderer, so no division is performed. -/
theorem c9_divide_by_zero (render : Rat → String) (a : Rat) :
    calculate render Operation.divide a 0 =
      ⟨[⟨"text", "Error: Cannot divide by zero"⟩], false⟩ := by
  simp [calculate]

/-- Claim C6.  The cache contract of fetchTrustCatalog over call
    sequences: a populated cache is returned immediately with no fetch;
    while every earlier response failed, each call issues a fetch and
    either fails with the catalog fetch error (cache left empty, so the
    next call fetches again) or stores and returns the parsed body; and
    after the first success every later call returns that body with no
    further fetch. -/
theorem c6_cache_contract :
    (∀ c r, fetchTrustCatalog (some c) r = (Except.ok c, some c, false)) ∧
    (∀ rs : List FetchResponse, ∀ i, i < rs.length →
      (∀ j, j < i → (rs.getD j default).ok = false) →
      ((runCalls none rs).getD i defaultOut).2 = true ∧
      ((rs.getD i default).ok = false →
        ((runCalls none rs).getD i defaultOut).1 = Except.error "Failed to fetch catalog") ∧
      ((rs.getD i default).ok = true →
        ((runCalls none rs).getD i defaultOut).1 = Except.ok (rs.getD i default).body)) ∧
    (∀ rs : List FetchResponse, ∀ k, k < rs.length →
      (∀ j, j < k → (rs.getD j default).ok = false) →
      (rs.getD k default).ok = true →
      ∀ i, k < i → i < rs.length →
      (runCalls none rs).getD i defaultOut = (Except.ok (rs.getD k default).body, false)) :=
  ⟨fun _ _ => rfl, runCalls_retry, runCalls_memoized⟩

/-- Concrete catalog entry used by cache witnesses. -/
def cacheEntryW : CatalogEntry := ⟨some ["CMP04_complianceHIPAA"], some "id1", none⟩

/-- Concrete response sequence used by the C6 witness: a failure, then a
    success, then a response that is never fetched. -/
def c6rsW : List FetchResponse :=
  [⟨false, []⟩, ⟨true, [cacheEntryW]⟩, ⟨false, []⟩]

/-- Witness for C6 at the concrete sequence c6rsW. -/
theorem c6_cache_contract_witness :
    ((runCalls none c6rsW).getD 0 defaultOut).2 = true ∧
    (runCalls none c6rsW).getD 2 defaultOut = (Except.ok [cacheEntryW], false) := by
  refine ⟨(c6_cache_contract.2.1 c6rsW 0 (by decide) (by decide)).1, ?_⟩
  have h := c6_cache_contract.2.2 c6rsW 1 (by decide) (by decide) (by decide) 2
    (by decide) (by decide)
  simpa [c6rsW] using h

/-- Claim C5 (counterexample).  With two concurrent callers and an
    unpopulated cache, the interleaving in which both callers run their
    first segment before the first fetch resolves issues two outbound
    fetches, not exactly one. -/
theorem c5_two_fetches_counterexample :
    (stepStart (stepStart twoCallerInit 0) 1).fetchCount = 2 ∧
    ¬ (stepStart (stepStart twoCallerInit 0) 1).fetchCount = 1 := by decide

/-- Claim C5 (amended).  A ready caller whose first segment runs while the
    cache is still empty always issues its own fetch, incrementing the
    fetch count; only a caller whose first segment runs after the cache is
    populated avoids the fetch and finishes with the cached value. -/
theorem c5_amended_fetch_per_empty_check (s : CacheSys) (i : Nat)
    (h : s.callers.getD i CallerPhase.doneErr = CallerPhase.ready) :
    (s.cache = none → (stepStart s i).fetchCount = s.fetchCount + 1) ∧
    (∀ c, s.cache = some c → (stepStart s i).fetchCount = s.fetchCount ∧
      (stepStart s i).callers.getD i CallerPhase.doneErr = CallerPhase.doneOk c) := by
  have hi : i < s.callers.length := by
    by_contra hlen
    rw [List.getD_eq_default _ _ (Nat.le_of_not_lt hlen)] at h
    exact CallerPhase.noConfusion h
  have hstep_none : s.cache = none → stepStart s i =
      { s with
        fetchCount := s.fetchCount + 1
        callers := s.callers.set i CallerPhase.awaitFetch } := by
    intro hc; unfold stepStart; rw [h, hc]
  have hstep_some : ∀ c, s.cache = some c → stepStart s i =
      { s with callers := s.callers.set i (CallerPhase.doneOk c) } := by
    intro c hc; unfold stepStart; rw [h, hc]
  refine ⟨fun hc => by rw [hstep_none hc], fun c hc => ⟨by rw [hstep_some c hc], ?_⟩⟩
  rw [hstep_some c hc]
  show (s.callers.set i (CallerPhase.doneOk c)).getD i CallerPhase.doneErr = _
  rw [List.getD_eq_getD_get?, List.get?_eq_getElem?,
    List.getElem?_set_eq_of_lt _ hi, Option.getD_some]

/-- Witness for the amended C5: the first caller of the two-caller race
    increments the fetch count from zero to one, and a ready caller
    checking a populated cache leaves the count unchanged. -/
theorem c5_amended_witness :
    (stepStart twoCallerInit 0).fetchCount = twoCallerInit.fetchCount + 1 ∧
    (stepStart ⟨some [], 3, [CallerPhase.ready]⟩ 0).fetchCount = 3 := by
  refine ⟨(c5_amended_fetch_per_empty_check twoCallerInit 0 (by decide)).1 rfl, ?_⟩
  exact ((c5_amended_fetch_per_empty_check ⟨some [], 3, [CallerPhase.ready]⟩ 0
    (by decide)).2 [] rfl).1

/-- Concrete catalog used by the C8 counterexample: the only entry matches
    the key, carries a present-but-empty TeamsAppId and a non-empty
    OfficeAssetId. -/
def c8cat : List CatalogEntry := [⟨some ["k"], some "", some "X"⟩]

/-- Claim C8 (counterexample).  On an entry whose TeamsAppId is present
    but empty, the handler falls back to OfficeAssetId (JS truthiness),
    while the claim as stated selects the present TeamsAppId; the two
    renderings differ. -/
theorem c8_truthiness_counterexample :
    getAppsWithTrustFilter c8cat "k" = "Matching App IDs for k:\nX" ∧
    getAppsWithTrustFilterClaim c8cat "k" = "Matching App IDs for k:\n" ∧
    getAppsWithTrustFilter c8cat "k" ≠ getAppsWithTrustFilterClaim c8cat "k" := by
  refine ⟨rfl, rfl, ?_⟩
  decide

/-- Claim C8 (amended).  The handler keeps exactly the entries whose
    TrustFactors array contains the key, selects TeamsAppId when it is
    present and non-empty and otherwise OfficeAssetId, drops an entry when
    the selected id is absent or empty, and renders the key-prefixed
    newline-joined list, or the no-apps literal when nothing remains. -/
theorem c8_amended_trust_filter (catalog : List CatalogEntry) (key : String) :
    getAppsWithTrustFilter catalog key = getAppsWithTrustFilterAmended catalog key := by
  unfold getAppsWithTrustFilter getAppsWithTrustFilterAmended
  rw [filter_pipeline_eq]

/-- Claim C7.  For a first chunk that is the line data: /sse/message with
    session id abc and request origin https://example.com, the rewrite
    produces exactly the advertised absolute URL; and a data: line already
    carrying an absolute URL (its target starts with http, covering both
    the http and https schemes) passes through unchanged, as long as the
    remainder of the chunk contains no relative match of its own. -/
theorem c7_rewrite_example_and_absolute :
    rewriteText "https://example.com" "data: /sse/message?sessionId=abc" =
      "data: https://example.com/sse/message?sessionId=abc" ∧
    (∀ (origin u : List Char), (['h', 't', 't', 'p'] : List Char).isPrefixOf u = true →
      hasRelMatch u = false →
      rewriteChars origin ("data: ".data ++ u) = "data: ".data ++ u) :=
  ⟨by decide, rewriteChars_abs_unchanged⟩

/-- Witness for C7 at a concrete absolute URL line. -/
theorem c7_rewrite_absolute_witness :
    rewriteChars "https://h".data ("data: ".data ++ "https://example.com/x".data) =
      "data: ".data ++ "https://example.com/x".data :=
  c7_rewrite_example_and_absolute.2 "https://h".data "https://example.com/x".data
    (by decide) (by decide)

/-- Claim C10.  The first-chunk replace is global and normalizing: every
    occurrence of data:, an arbitrary run of pattern whitespace and a
    slash-initial path is rewritten — the scan resuming after the match,
    so later occurrences (including ones inside payload text) are
    rewritten too — and the whitespace between data: and the path is
    normalized to exactly one space in each rewritten occurrence. -/
theorem c10_global_rewrite_normalizes :
    (∀ (origin ws relBody rest : List Char),
      (∀ c ∈ ws, isJsWs c = true) → (∀ c ∈ relBody, notCrLf c = true) →
      rewriteChars origin (dataLit ++ (ws ++ ('/' :: (relBody ++ ('\n' :: rest))))) =
        dataLit ++ (' ' :: (origin ++ ('/' :: (relBody ++ ('\n' :: rewriteChars origin rest)))))) ∧
    rewriteText "https://example.com" "event: x\ndata:/a\npayload data:  /b\n" =
      "event: x\ndata: https://example.com/a\npayload data: https://example.com/b\n" :=
  ⟨rewriteChars_match_head, by decide⟩

/-- Witness for C10: a two-space occurrence is normalized to one space. -/
theorem c10_global_rewrite_witness :
    rewriteChars "https://h".data (dataLit ++ ([' ', ' '] ++ ('/' :: (['b'] ++ ('\n' :: []))))) =
      dataLit ++ (' ' :: ("https://h".data ++
        ('/' :: (['b'] ++ ('\n' :: rewriteChars "https://h".data []))))) :=
  c10_global_rewrite_normalizes.1 "https://h".data [' ', ' '] ['b'] [] (by decide) (by decide)

/-- Claim C3 (counterexample).  An empty first chunk does not clear the
    firstChunk flag — the guard also requires the decoded text to be
    truthy — so a data: line that first appears in the second chunk is
    rewritten when the first chunk was empty, contradicting both the
    unconditional-transition description and its stated consequence. -/
theorem c3_empty_first_chunk_counterexample :
    rewriteSseStream "https://example.com" true [[], strBytes "data: /a"] =
      [[], strBytes "data: https://example.com/a"] ∧
    strBytes "data: https://example.com/a" ≠ strBytes "data: /a" := by decide

/-- Claim C3 (amended).  The filter clears the firstChunk flag exactly
    when the processed chunk arrives with the flag set and decodes to
    non-empty text — regardless of the content of that text or of whether
    a rewrite occurred in it — and once the flag is cleared every later
    chunk is forwarded as the re-encoding of its decoding with no rewrite
    ever applied. -/
theorem c3_transition_iff_nonempty (origin : String) (c : List Nat)
    (cs : List (List Nat)) :
    ((processChunk origin true c).2 = false ↔ decodeUtf8 c ≠ []) ∧
    rewriteSseStream origin false cs = cs.map (fun ck => encodeUtf8 (decodeUtf8 ck)) := by
  refine ⟨?_, rewriteSseStream_pass origin cs⟩
  cases hd : decodeUtf8 c with
  | nil => simp [processChunk, hd]
  | cons x xs => simp [processChunk, hd]

/-- Claim C4 (counterexample).  Every chunk, also after the first, is
    decoded and re-encoded: a second chunk holding the single byte 255,
    which is not valid UTF-8, is forwarded as the three-byte encoding of
    the replacement character, not byte-for-byte. -/
theorem c4_reencode_counterexample :
    rewriteSseStream "https://example.com" true [[120], [255]] =
      [[120], [239, 191, 189]] ∧
    ([239, 191, 189] : List Nat) ≠ [255] := by decide

/-- Claim C4 (amended).  After a first chunk whose decoded text is
    non-empty, every later chunk is forwarded as the re-encoding of its
    decoding, with no rewrite applied; since the filter still decodes and
    re-encodes each chunk, the forwarded bytes equal the original bytes
    exactly when the chunk is valid UTF-8, as witnessed by the decode
    round trip. -/
theorem c4_passthrough_after_first_nonempty (origin : String) (c₀ c : List Nat)
    (cs : List (List Nat)) (h₀ : decodeUtf8 c₀ ≠ []) (hc : validUtf8 c = true) :
    rewriteSseStream origin true (c₀ :: cs) =
      (processChunk origin true c₀).1 :: cs.map (fun ck => encodeUtf8 (decodeUtf8 ck)) ∧
    encodeUtf8 (decodeUtf8 c) = c := by
  constructor
  · have hsnd : (processChunk origin true c₀).2 = false := by
      cases hd : decodeUtf8 c₀ with
      | nil => exact absurd hd h₀
      | cons x xs => simp [processChunk, hd]
    rw [rewriteSseStream]
    rw [hsnd, rewriteSseStream_pass]
  · exact utf8_roundtrip c hc

/-- Witness for the amended C4 at concrete ASCII chunks. -/
theorem c4_passthrough_witness :
    (rewriteSseStream "https://example.com" true [strBytes "x", strBytes "hi"] =
      (processChunk "https://example.com" true (strBytes "x")).1 ::
        [strBytes "hi"].map (fun ck => encodeUtf8 (decodeUtf8 ck))) ∧
    encodeUtf8 (decodeUtf8 (strBytes "hi")) = strBytes "hi" :=
  c4_passthrough_after_first_nonempty "https://example.com" (strBytes "x")
    (strBytes "hi") [strBytes "hi"] (by decide) (by decide)

end RemoteMcp
